import Mathlib

/-!
Verification of `PyDune/physics/turbulent_flow/andreotti2009.py` against its
specification.

The module solves a linear boundary-value problem for a turbulent flow over a
sinusoidal bottom.  The turbulence-closure primitives `mu` and `mu_prime` live
in a separate module (`fourriere2010_unbounded`) and are treated by the spec as
an external capability, so here they are explicit function parameters of every
definition that uses them.  Real and complex machine floats are idealised as
`ℝ` and `ℂ`; `np.sqrt` on a nonnegative real is `Real.sqrt`, and the complex
principal square root `z ** 0.5` is `z ^ (1/2 : ℂ)` (Complex.cpow).
-/

namespace Andreotti2009

noncomputable section

open scoped BigOperators

/-- The closure capability: `mu eta eta_0 Kappa` and `mu_prime eta eta_0 Kappa`. -/
abbrev Closure := ℝ → ℝ → ℝ → ℝ

/-- `_P(eta, eta_H, eta_0, Kappa)`: the 4×4 complex system matrix, built row by
row exactly as in the source (`P1 … P4`), with `tp = 1 - eta/eta_H`. -/
def _P (mu mu_prime : Closure) (eta eta_H eta_0 Kappa : ℝ) : Fin 4 → Fin 4 → ℂ :=
  let tp : ℝ := 1 - eta / eta_H
  ![![0, -Complex.I, ((mu_prime eta eta_0 Kappa) / (2 * tp) : ℝ), 0],
    ![-Complex.I, 0, 0, 0],
    ![Complex.I * (mu eta eta_0 Kappa : ℝ) + ((4 * tp / mu_prime eta eta_0 Kappa : ℝ) : ℂ),
      ((mu_prime eta eta_0 Kappa : ℝ) : ℂ), 0, Complex.I],
    ![0, -Complex.I * (mu eta eta_0 Kappa : ℝ), Complex.I, 0]]

/-- `_S(eta, eta_H, eta_0, Kappa)`: the base forcing 4-vector. -/
def _S (mu_prime : Closure) (eta eta_H eta_0 Kappa : ℝ) : Fin 4 → ℂ :=
  ![((Kappa * (mu_prime eta eta_0 Kappa) ^ 2 - mu_prime eta eta_0 Kappa / (2 * eta_H) : ℝ) : ℂ),
    0, 0, 0]

/-- `_S_delta(eta, eta_H, eta_0, Kappa)`: the boundary-layer-height-perturbation
forcing 4-vector, with `tp = 1 - eta/eta_H`. -/
def _S_delta (mu_prime : Closure) (eta eta_H eta_0 Kappa : ℝ) : Fin 4 → ℂ :=
  let tp : ℝ := 1 - eta / eta_H
  ![((-(eta * mu_prime eta eta_0 Kappa) / (2 * eta_H ^ 2 * tp) : ℝ) : ℂ), 0, 0, 0]

/-- `_q1(eta_B)` on a real scalar.  `np.piecewise(eta_B + 0j, [eta_B > 1,
eta_B <= 1], …)`: on the first branch the code takes the complex principal
square root of `1 - 1/x**2` at `x = eta_B + 0j`; on the second branch it takes
the real `np.sqrt` of `1/eta_B**2 - 1` (that lambda reads the outer `eta_B`,
which for a scalar coincides with its argument). -/
def _q1 (eta_B : ℝ) : ℂ :=
  if 1 < eta_B then -((1 - 1 / ((eta_B : ℂ) + 0 * Complex.I) ^ 2) ^ ((1 : ℂ) / 2))
  else Complex.I * (Real.sqrt (1 / eta_B ^ 2 - 1) : ℝ)

/-- Matrix–vector product `P.dot(X)` for a single complex 4-state. -/
def matVec (M : Fin 4 → Fin 4 → ℂ) (X : Fin 4 → ℂ) : Fin 4 → ℂ :=
  fun i => ∑ k : Fin 4, M i k * X k

/-- Matrix–matrix product `P.dot(X)` for a 4×N batch of states. -/
def matMul {N : ℕ} (M : Fin 4 → Fin 4 → ℂ) (X : Fin 4 → Fin N → ℂ) : Fin 4 → Fin N → ℂ :=
  fun i j => ∑ k : Fin 4, M i k * X k j

/-- `np.transpose(np.tile(S, (N, 1)))`: the forcing vector broadcast over the
batch dimension (every column is `S`). -/
def tileT {N : ℕ} (S : Fin 4 → ℂ) : Fin 4 → Fin N → ℂ :=
  fun i _ => S i

/-- `_func(eta, X, eta_H, eta_0, Kappa)` on a single 4-vector: `P(eta)·X`. -/
def _func (mu mu_prime : Closure) (eta : ℝ) (X : Fin 4 → ℂ) (eta_H eta_0 Kappa : ℝ) :
    Fin 4 → ℂ :=
  matVec (_P mu mu_prime eta eta_H eta_0 Kappa) X

/-- `_func` on a 4×N batch: `P(eta)·X`. -/
def func_batch (mu mu_prime : Closure) (eta : ℝ) {N : ℕ} (X : Fin 4 → Fin N → ℂ)
    (eta_H eta_0 Kappa : ℝ) : Fin 4 → Fin N → ℂ :=
  matMul (_P mu mu_prime eta eta_H eta_0 Kappa) X

/-- `_func1(eta, X, eta_H, eta_0, Kappa)` on a single 4-vector: `P(eta)·X + S(eta)`. -/
def _func1 (mu mu_prime : Closure) (eta : ℝ) (X : Fin 4 → ℂ) (eta_H eta_0 Kappa : ℝ) :
    Fin 4 → ℂ :=
  fun i => matVec (_P mu mu_prime eta eta_H eta_0 Kappa) X i + _S mu_prime eta eta_H eta_0 Kappa i

/-- `_func1` on a 4×N batch: `P(eta)·X + tile(S)`. -/
def func1_batch (mu mu_prime : Closure) (eta : ℝ) {N : ℕ} (X : Fin 4 → Fin N → ℂ)
    (eta_H eta_0 Kappa : ℝ) : Fin 4 → Fin N → ℂ :=
  fun i j => matMul (_P mu mu_prime eta eta_H eta_0 Kappa) X i j +
    tileT (_S mu_prime eta eta_H eta_0 Kappa) i j

/-- `_func_delta(eta, X, eta_H, eta_0, Kappa)` on a single 4-vector:
`P(eta)·X + S_delta(eta)`. -/
def _func_delta (mu mu_prime : Closure) (eta : ℝ) (X : Fin 4 → ℂ) (eta_H eta_0 Kappa : ℝ) :
    Fin 4 → ℂ :=
  fun i => matVec (_P mu mu_prime eta eta_H eta_0 Kappa) X i +
    _S_delta mu_prime eta eta_H eta_0 Kappa i

/-- `_func_delta` on a 4×N batch: `P(eta)·X + tile(S_delta)`. -/
def func_delta_batch (mu mu_prime : Closure) (eta : ℝ) {N : ℕ} (X : Fin 4 → Fin N → ℂ)
    (eta_H eta_0 Kappa : ℝ) : Fin 4 → Fin N → ℂ :=
  fun i j => matMul (_P mu mu_prime eta eta_H eta_0 Kappa) X i j +
    tileT (_S_delta mu_prime eta eta_H eta_0 Kappa) i j

/-- Which right-hand side `_solve_system` hands to `solve_ivp`. -/
inductive FieldKind : Type
  | homogeneous : FieldKind
  | forced : FieldKind
  | forcedDelta : FieldKind
deriving DecidableEq, Inhabited

/-- The list `X0_vec` of initial conditions built by `_solve_system` (four
entries in the source). -/
def X0_vec (mu_prime : Closure) (eta_0 Kappa : ℝ) : List (Fin 4 → ℂ) :=
  [![(-(mu_prime 0 eta_0 Kappa) : ℝ), 0 * Complex.I, 0, 0],
   ![0, 0 * Complex.I, 1, 0],
   ![0, 0 * Complex.I, 0, 1],
   ![0, 0, 0, 0]]

/-- The branch on the loop index `i` in `_solve_system`: `i == 0` uses
`_func1`, `i == 4` would use `_func_delta`, anything else uses `_func`. -/
def fieldChoice (i : ℕ) : FieldKind :=
  if i = 0 then FieldKind.forced
  else if i = 4 then FieldKind.forcedDelta
  else FieldKind.homogeneous

/-- The sequence of initial-value problems `_solve_system` feeds to
`solve_ivp`, in loop order: for each `(i, X0)` in `enumerate(X0_vec)` the pair
(right-hand-side kind chosen by `i`, initial state `X0`). -/
def solve_system_specs (mu_prime : Closure) (eta_0 Kappa : ℝ) :
    List (FieldKind × (Fin 4 → ℂ)) :=
  (X0_vec mu_prime eta_0 Kappa).enum.map (fun p => (fieldChoice p.1, p.2))

/-- The actual right-hand-side function denoted by a `FieldKind`. -/
def fieldOf (mu mu_prime : Closure) (kind : FieldKind) (eta_H eta_0 Kappa : ℝ) :
    ℝ → (Fin 4 → ℂ) → (Fin 4 → ℂ) :=
  match kind with
  | FieldKind.homogeneous => fun eta X => _func mu mu_prime eta X eta_H eta_0 Kappa
  | FieldKind.forced => fun eta X => _func1 mu mu_prime eta X eta_H eta_0 Kappa
  | FieldKind.forcedDelta => fun eta X => _func_delta mu mu_prime eta X eta_H eta_0 Kappa

/-! ### `calculate_solution`: boundary matching

`calculate_solution` evaluates the dense interpolants `X.sol(max_z)` of the
four `solve_ivp` results.  The adaptive integrator itself is outside the
embedding, so the matching step is stated over an arbitrary family
`sols : Fin 4 → ℝ → Fin 4 → ℂ` of dense solutions (one per integrated IVP,
in the order `_solve_system` returns them). -/

/-- `To_apply = np.array([X.sol(max_z)[1:] for X in Results]).T`: the 3×4
matrix whose entry `(r, c)` is component `r+1` (the last three components) of
solution `c` at `max_z`. -/
def To_apply (sols : Fin 4 → ℝ → Fin 4 → ℂ) (max_z : ℝ) : Fin 3 → Fin 4 → ℂ :=
  fun r c => sols c max_z r.succ

/-- `To_apply[:, :-1]`: the 3×3 matrix the code inverts, i.e. the trailing
three components of solutions 0, 1, 2 (the `_S`-forced one and the two
homogeneous unit-vector ones). -/
def M_active (sols : Fin 4 → ℝ → Fin 4 → ℂ) (max_z : ℝ) : Matrix (Fin 3) (Fin 3) ℂ :=
  Matrix.of fun r c => To_apply sols max_z r c.castSucc

/-- `To_apply[:, -1]`: the column the code subtracts from `b`, i.e. the
trailing three components of solution 3 (the zero-initial-condition
placeholder). -/
def M_forced_col (sols : Fin 4 → ℝ → Fin 4 → ℂ) (max_z : ℝ) : Fin 3 → ℂ :=
  fun r => To_apply sols max_z r 3

open Classical in
/-- `np.linalg.inv` on a 3×3 complex matrix: raises `LinAlgError("Singular
matrix")` when the matrix is singular, otherwise returns the inverse.  No
condition number is computed and no parameters are attached to the error. -/
def np_linalg_inv (M : Matrix (Fin 3) (Fin 3) ℂ) : Except String (Matrix (Fin 3) (Fin 3) ℂ) :=
  if M.det = 0 then Except.error "Singular matrix" else Except.ok M⁻¹

/-- `pars = np.dot(np.linalg.inv(To_apply[:, :-1]), b - To_apply[:, -1])`:
the boundary-matching solve of `calculate_solution`, with `np.linalg.inv`'s
failure on a singular matrix made explicit. -/
def apply_bc (sols : Fin 4 → ℝ → Fin 4 → ℂ) (max_z : ℝ) (b : Fin 3 → ℂ) :
    Except String (Fin 3 → ℂ) :=
  Except.map (fun Minv => Minv.mulVec (fun r => b r - M_forced_col sols max_z r))
    (np_linalg_inv (M_active sols max_z))

/-- The right-hand side `b` of the boundary conditions, exactly as assembled in
`calculate_solution`: `complex(_q1(eta_B))` is added to the real number
`1/(eta_H*Fr**2)` and the product is taken with the real `mu(max_z)**2`. -/
def b_vec (mu : Closure) (eta_0 eta_H eta_B Fr Kappa max_z : ℝ) : Fin 3 → ℂ :=
  ![Complex.I * ((mu max_z eta_0 Kappa : ℝ) : ℂ),
    ((1 / max_z : ℝ) : ℂ),
    (((mu max_z eta_0 Kappa) ^ 2 : ℝ) : ℂ) * (_q1 eta_B + ((1 / (eta_H * Fr ^ 2) : ℝ) : ℂ))]

/-- The same right-hand side written as the specification states it, with all
casts taken inside `ℂ`:
`b = [i·mu(max_z,eta_0,kappa), 1/max_z, mu(max_z,eta_0,kappa)^2·(q1(eta_B) + 1/(eta_H·Fr^2))]`. -/
def b_spec (mu : Closure) (eta_0 eta_H eta_B Fr Kappa max_z : ℝ) : Fin 3 → ℂ :=
  ![Complex.I * (mu max_z eta_0 Kappa : ℝ),
    1 / (max_z : ℂ),
    ((mu max_z eta_0 Kappa : ℝ) : ℂ) ^ 2 * (_q1 eta_B + 1 / ((eta_H : ℂ) * (Fr : ℂ) ^ 2))]

/-- Everything `calculate_solution` fixes before (and independently of) the
numerical integration: the resolved integration cutoff, the closure constant
it hands to `_solve_system`, the resulting list of IVPs, and the
boundary-condition right-hand side. -/
structure CalcPlan where
  max_z : ℝ
  sysKappa : ℝ
  specs : List (FieldKind × (Fin 4 → ℂ))
  b : Fin 3 → ℂ

/-- The pre-integration dataflow of `calculate_solution(eta_0, eta_H, eta_B,
Fr, max_z, Kappa, …)`: resolve `max_z` (default `0.9999*eta_H`), call
`_solve_system(eta_0, eta_H, Kappa=0.4, max_z=max_z, …)` — the literal `0.4`,
not the `Kappa` argument — and build `b` from the supplied `Kappa`.  The
source contains no parameter validation, so the result is always `ok`. -/
def calculate_solution_plan (mu mu_prime : Closure) (eta_0 eta_H eta_B Fr : ℝ)
    (max_z? : Option ℝ) (Kappa : ℝ) : Except String CalcPlan :=
  let max_z := max_z?.getD (0.9999 * eta_H)
  Except.ok
    { max_z := max_z
      sysKappa := 0.4
      specs := solve_system_specs mu_prime eta_0 (0.4 : ℝ)
      b := b_vec mu eta_0 eta_H eta_B Fr Kappa max_z }

/-! ### A generic explicit Runge–Kutta integrator

`solve_ivp` with an explicit method (the default `RK45` as well as the
`DOP853` that `calculate_solution` requests) computes, at each accepted step,
stages `k_i = f(t + c_i·h, X + h·Σ_j a_{ij} k_j)` over the earlier stages, a
new state `X' = X + h·Σ_i b_i k_i`, and a dense interpolant whose value is
`X + h·Σ_i d_i(θ) k_i` for polynomial weights `d_i`.  The tableau
coefficients are left arbitrary, so every explicit method (and every dense
interpolant of this shape) is covered at once. -/

/-- Real-weighted linear combination of a list of complex 4-vectors; surplus
entries on either side are ignored (weight lists and stage lists are zipped). -/
def lincomb : List (Fin 4 → ℂ) → List ℝ → Fin 4 → ℂ
  | k :: ks, a :: ws => fun i => (a : ℂ) * k i + lincomb ks ws i
  | _, _ => fun _ => 0

/-- The stages of one explicit Runge–Kutta step: `tab` lists, per stage, its
node `c_i` and its row `a_{i,·}` of tableau coefficients (weights over the
stages already computed, in order). -/
def rkStages (f : ℝ → (Fin 4 → ℂ) → (Fin 4 → ℂ)) (t h : ℝ) (X : Fin 4 → ℂ) :
    List (ℝ × List ℝ) → List (Fin 4 → ℂ) → List (Fin 4 → ℂ)
  | [], acc => acc.reverse
  | (c, row) :: rest, acc =>
      let k := f (t + c * h) (fun i => X i + (h : ℂ) * lincomb acc.reverse row i)
      rkStages f t h X rest (k :: acc)

/-- One explicit Runge–Kutta step with stage tableau `tab` and output
weights `bw`. -/
def rkStep (f : ℝ → (Fin 4 → ℂ) → (Fin 4 → ℂ)) (tab : List (ℝ × List ℝ)) (bw : List ℝ)
    (t h : ℝ) (X : Fin 4 → ℂ) : Fin 4 → ℂ :=
  fun i => X i + (h : ℂ) * lincomb (rkStages f t h X tab []) bw i

/-- The dense-output evaluation attached to the step starting at `(t, h, X)`:
`X + h·Σ_i d_i k_i` for arbitrary interpolation weights `dw` (the weights a
concrete method produces are polynomials in the query point). -/
def rkDense (f : ℝ → (Fin 4 → ℂ) → (Fin 4 → ℂ)) (tab : List (ℝ × List ℝ)) (dw : List ℝ)
    (t h : ℝ) (X : Fin 4 → ℂ) : Fin 4 → ℂ :=
  fun i => X i + (h : ℂ) * lincomb (rkStages f t h X tab []) dw i

/-- All accepted states of the integration, starting from `X0`, over an
arbitrary sequence `steps` of accepted `(t, h)` step positions. -/
def rkStates (f : ℝ → (Fin 4 → ℂ) → (Fin 4 → ℂ)) (tab : List (ℝ × List ℝ)) (bw : List ℝ)
    (X0 : Fin 4 → ℂ) : List (ℝ × ℝ) → List (Fin 4 → ℂ)
  | [] => [X0]
  | (t, h) :: rest => X0 :: rkStates f tab bw (rkStep f tab bw t h X0) rest

/-! ### `np.piecewise`, as `_q1` invokes it on an array

`np.piecewise(x, condlist, funclist)` zeroes an output array and then, for
each condition/function pair, performs the masked assignment
`y[cond] = f(x[cond])`.  A masked assignment succeeds when the value list has
exactly as many entries as the mask has `true` positions, or length one
(NumPy broadcasting); otherwise it raises. -/

/-- Overwrite the `true`-masked positions of `y`, in order, with the entries
of `vals` (callers guard the length; leftovers are ignored). -/
def writeMasked : List ℂ → List Bool → List ℂ → List ℂ
  | [], _, _ => []
  | _ :: ys, true :: ms, v :: vs => v :: writeMasked ys ms vs
  | y :: ys, true :: ms, [] => y :: writeMasked ys ms []
  | y :: ys, false :: ms, vs => y :: writeMasked ys ms vs
  | y :: ys, [], _ => y :: writeMasked ys [] []

/-- Number of `true` entries of a mask. -/
def countTrue (mask : List Bool) : ℕ := (mask.filter id).length

open Classical in
/-- NumPy's masked assignment `y[mask] = vals`, with its shape rule: the
right-hand side must have exactly `countTrue mask` entries or exactly one
entry (broadcast); anything else raises `ValueError`. -/
def npMaskAssign (y : List ℂ) (mask : List Bool) (vals : List ℂ) : Option (List ℂ) :=
  if vals.length = countTrue mask then some (writeMasked y mask vals)
  else if vals.length = 1 then
    some (writeMasked y mask (List.replicate (countTrue mask) vals.headI))
  else none

open Classical in
/-- `_q1` applied to an array, translated call for call: the output starts as
zeros; the first masked assignment writes `-sqrt(1 - 1/x**2)` over the
entries with `eta_B > 1` (that lambda uses its argument `x`, the masked
selection); the second masked assignment writes `1j*np.sqrt(1/eta_B**2 - 1)`
— computed over the WHOLE input array `eta_B`, because the second lambda
closes over `eta_B` instead of using its argument — onto the entries with
`eta_B <= 1`. -/
def q1_piecewise (eta_B : List ℝ) : Option (List ℂ) :=
  let y0 : List ℂ := eta_B.map (fun _ => 0)
  let mask1 : List Bool := eta_B.map (fun x => decide (1 < x))
  let mask2 : List Bool := eta_B.map (fun x => decide (x ≤ 1))
  let vals1 : List ℂ := (eta_B.filter (fun x => decide (1 < x))).map
    (fun x => -((1 - 1 / ((x : ℂ) + 0 * Complex.I) ^ 2) ^ ((1 : ℂ) / 2)))
  let vals2 : List ℂ := eta_B.map (fun x => Complex.I * (Real.sqrt (1 / x ^ 2 - 1) : ℝ))
  (npMaskAssign y0 mask1 vals1).bind (fun y1 => npMaskAssign y1 mask2 vals2)

/-! ### Concrete inputs used to instantiate the claims -/

/-- The all-zero closure capability. -/
def czero : Closure := fun _ _ _ => 0

/-- Dense solutions whose forced member (index 0) is constant `1` and whose
other members vanish. -/
def exSols : Fin 4 → ℝ → Fin 4 → ℂ := fun c _ _ => if c = 0 then 1 else 0

/-- Dense solutions placing a `1` in component `c+1` of solution `c`: their
matching matrix `M_active` is the identity. -/
def unitSols : Fin 4 → ℝ → Fin 4 → ℂ :=
  fun c _ i => if (i : ℕ) = (c : ℕ) + 1 then 1 else 0

/-- Dense solutions whose matching matrix is `diag(1, 10⁻²⁰, 10⁻²⁰)`:
nonsingular, but with condition number `10²⁰` — the two homogeneous columns
are a factor `10⁻²⁰` from vanishing while the first has norm `1`. -/
def illSols : Fin 4 → ℝ → Fin 4 → ℂ :=
  fun c _ i =>
    if (i : ℕ) = (c : ℕ) + 1 then (if (c : ℕ) = 0 then 1 else ((10 : ℂ) ^ 20)⁻¹) else 0

end

end Andreotti2009

namespace Andreotti2009

noncomputable section

open scoped BigOperators

/-! ## Theorems -/

/-- **C1, counterexample.**  At the concrete parameter set `(eta_0, Kappa) =
(1, 2/5)` (with the zero closure), `_solve_system` does not set up five
initial-value problems: `X0_vec` has four entries, so the loop body runs
four times. -/
theorem C1_counterexample : (solve_system_specs czero 1 (2 / 5)).length ≠ 5 := by
  have h4 : (solve_system_specs czero 1 (2 / 5)).length = 4 := rfl
  rw [h4]
  decide

/-- **C1.**  What `_solve_system` integrates, for every closure and parameter
set: exactly four initial-value problems — the `_S`-forced one with initial
state `[-mu_prime(0,eta_0,Kappa), 0, 0, 0]`, the two homogeneous unit-vector
ones, and a homogeneous one from the zero state.  The `i == 4` branch that
would select `_func_delta` is unreachable (`enumerate` yields `i < 4`), so no
returned solution is driven by the `S_delta` forcing. -/
theorem C1_four_ivps (mu_prime : Closure) (eta_0 Kappa : ℝ) :
    solve_system_specs mu_prime eta_0 Kappa =
      [(FieldKind.forced, ![((-(mu_prime 0 eta_0 Kappa) : ℝ) : ℂ), 0 * Complex.I, 0, 0]),
       (FieldKind.homogeneous, ![0, 0 * Complex.I, 1, 0]),
       (FieldKind.homogeneous, ![0, 0 * Complex.I, 0, 1]),
       (FieldKind.homogeneous, ![0, 0, 0, 0])] ∧
    (solve_system_specs mu_prime eta_0 Kappa).length = 4 := ⟨rfl, rfl⟩

/-- **C3.**  `calculate_solution` hands `_solve_system` the literal closure
constant `0.4`, whatever `Kappa` it was given, while the boundary-condition
right-hand side `b` is built with the supplied `Kappa`; so whenever
`Kappa ≠ 0.4`, the integrated system and the matching conditions use two
different closure constants. -/
theorem C3_kappa_mismatch (mu mu_prime : Closure) (eta_0 eta_H eta_B Fr : ℝ)
    (mz : Option ℝ) (Kappa : ℝ) :
    ∃ plan, calculate_solution_plan mu mu_prime eta_0 eta_H eta_B Fr mz Kappa =
        Except.ok plan ∧
      plan.sysKappa = 0.4 ∧
      plan.specs = solve_system_specs mu_prime eta_0 (0.4 : ℝ) ∧
      plan.b = b_vec mu eta_0 eta_H eta_B Fr Kappa (mz.getD (0.9999 * eta_H)) ∧
      (Kappa ≠ 0.4 → plan.sysKappa ≠ Kappa) :=
  ⟨_, rfl, rfl, rfl, rfl, fun h => fun he => h he.symm⟩

/-- **C4.**  The right-hand side assembled by `calculate_solution` is exactly
`b = [i·mu(max_z,eta_0,kappa), 1/max_z, mu(max_z,eta_0,kappa)^2·(q1(eta_B)
+ 1/(eta_H·Fr^2))]` as the specification states it, for every closure and
parameter set: the code's real-then-cast arithmetic agrees with the spec's
complex reading of the same formula. -/
theorem C4_rhs (mu : Closure) (eta_0 eta_H eta_B Fr Kappa max_z : ℝ) :
    b_vec mu eta_0 eta_H eta_B Fr Kappa max_z =
      b_spec mu eta_0 eta_H eta_B Fr Kappa max_z := by
  funext i
  fin_cases i <;> simp [b_vec, b_spec]

/-- **C8, counterexample.**  At `eta_0 = -1`, `eta_H = -1`, `max_z = 5` —
violating `eta_0 > 0`, `eta_H > 0` and `max_z < eta_H` all at once —
`calculate_solution` still proceeds: its pre-integration phase completes
without any domain error. -/
theorem C8_counterexample :
    (calculate_solution_plan czero czero (-1) (-1) 1 1 (some 5) (2 / 5)).isOk = true := rfl

/-- **C8.**  `calculate_solution` contains no parameter validation at all:
for every input — in particular `eta_H ≤ 0`, `eta_0 ≤ 0` or
`max_z ≥ eta_H` — the pre-integration phase raises nothing and the
integration plan is produced. -/
theorem C8_no_validation (mu mu_prime : Closure) (eta_0 eta_H eta_B Fr : ℝ)
    (mz : Option ℝ) (Kappa : ℝ) :
    (calculate_solution_plan mu mu_prime eta_0 eta_H eta_B Fr mz Kappa).isOk = true := rfl

/-- **C10.**  Batched and single-state evaluation agree for all three vector
fields: for every closure, parameters, batch `X : 4×N` and column `j`, the
`j`-th column of the batched result equals the evaluator applied to the `j`-th
column of `X` (the forcing term is broadcast to every column). -/
theorem C10_batch_consistency (mu mu_prime : Closure) (eta eta_H eta_0 Kappa : ℝ)
    (N : ℕ) (X : Fin 4 → Fin N → ℂ) (j : Fin N) :
    (fun i => func_batch mu mu_prime eta X eta_H eta_0 Kappa i j) =
        _func mu mu_prime eta (fun k => X k j) eta_H eta_0 Kappa ∧
    (fun i => func1_batch mu mu_prime eta X eta_H eta_0 Kappa i j) =
        _func1 mu mu_prime eta (fun k => X k j) eta_H eta_0 Kappa ∧
    (fun i => func_delta_batch mu mu_prime eta X eta_H eta_0 Kappa i j) =
        _func_delta mu mu_prime eta (fun k => X k j) eta_H eta_0 Kappa :=
  ⟨rfl, rfl, rfl⟩

/-- **C2, counterexample.**  With the concrete dense solutions `exSols`
(forced solution constantly `1`, all others zero) at `max_z = 1`, the column
the code subtracts from `b` is NOT the forced solution's trailing column:
they already differ in their first entry (`0` against `1`). -/
theorem C2_counterexample : M_forced_col exSols 1 0 ≠ To_apply exSols 1 0 0 := by
  simp [M_forced_col, To_apply, exSols]

/-- **C2.**  What the matching step of `calculate_solution` actually builds,
for every family of dense solutions, `max_z` and `b`: the columns of the
inverted matrix `To_apply[:, :-1]` are the trailing three components of
solutions 1–3 (the `_S`-forced one and the two homogeneous ones), the
subtracted column `To_apply[:, -1]` comes from the zero-initial-condition
placeholder (solution 4), and whenever that matrix is nonsingular the solve
returns `pars` with `M_active · pars = b - M_forced`. -/
theorem C2_matching_structure (sols : Fin 4 → ℝ → Fin 4 → ℂ) (max_z : ℝ) (b : Fin 3 → ℂ) :
    (∀ r c, M_active sols max_z r c = sols (Fin.castSucc c) max_z (Fin.succ r)) ∧
    (∀ r, M_forced_col sols max_z r = sols 3 max_z (Fin.succ r)) ∧
    ((M_active sols max_z).det ≠ 0 →
      ∃ pars, apply_bc sols max_z b = Except.ok pars ∧
        (M_active sols max_z).mulVec pars = fun r => b r - M_forced_col sols max_z r) := by
  refine ⟨fun r c => rfl, fun r => rfl, fun hdet =>
    ⟨(M_active sols max_z)⁻¹.mulVec (fun r => b r - M_forced_col sols max_z r), ?_, ?_⟩⟩
  · simp [apply_bc, np_linalg_inv, if_neg hdet, Except.map]
  · rw [Matrix.mulVec_mulVec, Matrix.mul_nonsing_inv _ (isUnit_iff_ne_zero.mpr hdet),
      Matrix.one_mulVec]

/-- Any real-weighted combination of all-zero stage vectors vanishes. -/
theorem lincomb_eq_zero (ks : List (Fin 4 → ℂ)) (ws : List ℝ)
    (hk : ∀ k ∈ ks, k = fun _ => (0 : ℂ)) (i : Fin 4) : lincomb ks ws i = 0 := by
  induction ks generalizing ws with
  | nil => cases ws <;> simp [lincomb]
  | cons k ks ih =>
    cases ws with
    | nil => simp [lincomb]
    | cons w ws =>
      have hk0 : k = fun _ => (0 : ℂ) := hk k (List.mem_cons_self k ks)
      have hrest : ∀ x ∈ ks, x = fun _ => (0 : ℂ) :=
        fun x hx => hk x (List.mem_cons_of_mem k hx)
      simp [lincomb, hk0, ih ws hrest]

/-- Every stage an explicit Runge–Kutta step computes on the zero state is
zero, for any field that vanishes on the zero state and any tableau. -/
theorem rkStages_eq_zero (f : ℝ → (Fin 4 → ℂ) → (Fin 4 → ℂ))
    (hf : ∀ s, f s (fun _ => 0) = fun _ => 0) (t h : ℝ) (tab : List (ℝ × List ℝ))
    (acc : List (Fin 4 → ℂ)) (hacc : ∀ k ∈ acc, k = fun _ => (0 : ℂ)) :
    ∀ k ∈ rkStages f t h (fun _ => 0) tab acc, k = fun _ => (0 : ℂ) := by
  induction tab generalizing acc with
  | nil =>
    intro k hk
    simp only [rkStages] at hk
    exact hacc k (List.mem_reverse.mp hk)
  | cons p rest ih =>
    obtain ⟨c, row⟩ := p
    intro k hk
    simp only [rkStages] at hk
    refine ih _ ?_ k hk
    intro x hx
    rcases List.mem_cons.mp hx with h1 | h1
    · rw [h1]
      have hz : (fun i => (fun _ => (0 : ℂ)) i + (h : ℂ) * lincomb acc.reverse row i) =
          fun _ => (0 : ℂ) := by
        funext i
        simp [lincomb_eq_zero acc.reverse row
          (fun y hy => hacc y (List.mem_reverse.mp hy)) i]
      rw [hz]
      exact hf _
    · exact hacc x h1

/-- One explicit Runge–Kutta step leaves the zero state at zero. -/
theorem rkStep_eq_zero (f : ℝ → (Fin 4 → ℂ) → (Fin 4 → ℂ))
    (hf : ∀ s, f s (fun _ => 0) = fun _ => 0) (tab : List (ℝ × List ℝ)) (bw : List ℝ)
    (t h : ℝ) : rkStep f tab bw t h (fun _ => 0) = fun _ => (0 : ℂ) := by
  funext i
  simp only [rkStep]
  simp [lincomb_eq_zero _ bw (rkStages_eq_zero f hf t h tab [] (by simp)) i]

/-- **C7.**  The placeholder (4th) fundamental solution of `_solve_system`
has the zero initial state and the homogeneous field `dX/deta = P(eta)·X`,
and stays identically zero over the whole integration: whatever explicit
Runge–Kutta tableau, output weights, step sequence and dense-output weights
the adaptive integrator uses, every accepted state and every dense-output
evaluation is the zero vector, for every closure and parameter set. -/
theorem C7_placeholder_zero (mu mu_prime : Closure) (eta_H eta_0 Kappa : ℝ)
    (tab : List (ℝ × List ℝ)) (bw dw : List ℝ) (steps : List (ℝ × ℝ)) (t h : ℝ) :
    (solve_system_specs mu_prime eta_0 Kappa).getD 3 default =
      (FieldKind.homogeneous, ![0, 0, 0, 0]) ∧
    (![0, 0, 0, 0] : Fin 4 → ℂ) = (fun _ => 0) ∧
    rkStates (fieldOf mu mu_prime FieldKind.homogeneous eta_H eta_0 Kappa) tab bw
      (fun _ => 0) steps = List.replicate (steps.length + 1) (fun _ => (0 : ℂ)) ∧
    rkDense (fieldOf mu mu_prime FieldKind.homogeneous eta_H eta_0 Kappa) tab dw t h
      (fun _ => 0) = (fun _ => (0 : ℂ)) := by
  have hf : ∀ s, fieldOf mu mu_prime FieldKind.homogeneous eta_H eta_0 Kappa s
      (fun _ => 0) = fun _ => (0 : ℂ) := by
    intro s
    funext i
    simp [fieldOf, _func, matVec]
  refine ⟨rfl, ?_, ?_, ?_⟩
  · funext i; fin_cases i <;> rfl
  · induction steps with
    | nil => simp [rkStates, List.replicate]
    | cons st rest ih =>
      obtain ⟨ts, hs⟩ := st
      simp only [rkStates, rkStep_eq_zero _ hf tab bw ts hs, List.length_cons, ih,
        List.replicate]
  · funext i
    simp only [rkDense]
    simp [lincomb_eq_zero _ dw (rkStages_eq_zero _ hf t h tab [] (by simp)) i]

/-- **C5.**  The branch structure of `_q1` on a real scalar: for `eta_B > 1`
the complex principal square root collapses to the real one and
`q1 = -sqrt(1 - 1/eta_B^2)`, real (zero imaginary part) and non-positive
(evanescent regime); for `eta_B <= 1`, `q1 = i*sqrt(1/eta_B^2 - 1)`, purely
imaginary (zero real part, propagating regime); and at the branch boundary
`eta_B = 1` both formulas give `0`, so the two branches agree there. -/
theorem C5_q1_branches (eta_B : ℝ) :
    (1 < eta_B → _q1 eta_B = -((Real.sqrt (1 - 1 / eta_B ^ 2) : ℝ) : ℂ) ∧
      (_q1 eta_B).im = 0 ∧ (_q1 eta_B).re ≤ 0) ∧
    (eta_B ≤ 1 → _q1 eta_B = Complex.I * ((Real.sqrt (1 / eta_B ^ 2 - 1) : ℝ) : ℂ) ∧
      (_q1 eta_B).re = 0) ∧
    _q1 1 = 0 ∧ -((Real.sqrt (1 - 1 / (1 : ℝ) ^ 2) : ℝ) : ℂ) = 0 := by
  refine ⟨?_, ?_, ?_, ?_⟩
  · intro h
    have hpos : (0 : ℝ) < eta_B ^ 2 := by nlinarith
    have hnn : (0 : ℝ) ≤ 1 - 1 / eta_B ^ 2 := by
      have h1 : 1 / eta_B ^ 2 ≤ 1 := by
        rw [div_le_one hpos]; nlinarith
      linarith
    have hq : _q1 eta_B = -((Real.sqrt (1 - 1 / eta_B ^ 2) : ℝ) : ℂ) := by
      rw [_q1, if_pos h]
      congr 1
      have h1 : ((eta_B : ℂ) + 0 * Complex.I) = (eta_B : ℂ) := by ring
      have h2 : (1 - 1 / (eta_B : ℂ) ^ 2) = ((1 - 1 / eta_B ^ 2 : ℝ) : ℂ) := by
        push_cast; ring
      have h3 : ((1 : ℂ) / 2) = (((1 / 2 : ℝ)) : ℂ) := by norm_num
      rw [h1, h2, h3, ← Complex.ofReal_cpow hnn, Real.sqrt_eq_rpow]
    refine ⟨hq, ?_, ?_⟩
    · rw [hq]; simp
    · rw [hq]
      simp only [Complex.neg_re, Complex.ofReal_re]
      exact neg_nonpos.mpr (Real.sqrt_nonneg _)
  · intro h
    have hq : _q1 eta_B = Complex.I * ((Real.sqrt (1 / eta_B ^ 2 - 1) : ℝ) : ℂ) := by
      rw [_q1, if_neg (not_lt.mpr h)]
    exact ⟨hq, by rw [hq]; simp⟩
  · rw [_q1, if_neg (lt_irrefl 1)]
    norm_num
  · norm_num

/-- **C6.**  `_q1` on the mixed array `eta_B = [0.5, 2.0]` raises instead of
evaluating elementwise: the `eta_B <= 1` branch computes its values over the
whole input array (its lambda closes over `eta_B` rather than using its
masked argument), so `np.piecewise` tries to assign two values to one masked
slot and fails with a `ValueError`. -/
theorem C6_piecewise_raises : q1_piecewise [1 / 2, 2] = none := by
  have h1 : decide ((1 : ℝ) < 1 / 2) = false := decide_eq_false (by norm_num)
  have h2 : decide ((1 : ℝ) < 2) = true := decide_eq_true (by norm_num)
  have h3 : decide ((1 / 2 : ℝ) ≤ 1) = true := decide_eq_true (by norm_num)
  have h4 : decide ((2 : ℝ) ≤ 1) = false := decide_eq_false (by norm_num)
  simp only [q1_piecewise, List.map_cons, List.map_nil, List.filter, h1, h2, h3, h4,
    npMaskAssign, countTrue, writeMasked, List.length, Option.bind]
  norm_num [npMaskAssign, countTrue, writeMasked]

/-- **C9, counterexample.**  With the concrete dense solutions `illSols`,
whose matching matrix is `diag(1, 10⁻²⁰, 10⁻²⁰)` — nonsingular but with
condition number `10²⁰`, i.e. severely ill-conditioned — `calculate_solution`'s
matching step silently returns coefficients: no warning and no error carrying
a condition number is produced. -/
theorem C9_counterexample : (apply_bc illSols 1 (fun _ => 1)).isOk = true := by
  have hdet : (M_active illSols 1).det = ((10 : ℂ) ^ 20)⁻¹ * ((10 : ℂ) ^ 20)⁻¹ := by
    rw [Matrix.det_fin_three]
    simp [M_active, To_apply, illSols]
  have hne : (M_active illSols 1).det ≠ 0 := by
    rw [hdet]
    have : ((10 : ℂ) ^ 20)⁻¹ ≠ 0 := inv_ne_zero (pow_ne_zero _ (by norm_num))
    exact mul_ne_zero this this
  simp [apply_bc, np_linalg_inv, if_neg hne, Except.map, Except.isOk, Except.toBool]

/-- **C9.**  The failure semantics the code actually has, for every family of
dense solutions, `max_z` and `b`: an exactly singular matching matrix makes
`np.linalg.inv` raise the generic `LinAlgError("Singular matrix")` — a fixed
message carrying neither a condition number nor the parameter set — while any
nonsingular matrix, however ill-conditioned, is inverted and the coefficients
are returned with no conditioning report. -/
theorem C9_failure_semantics (sols : Fin 4 → ℝ → Fin 4 → ℂ) (max_z : ℝ) (b : Fin 3 → ℂ) :
    ((M_active sols max_z).det = 0 →
      apply_bc sols max_z b = Except.error "Singular matrix") ∧
    ((M_active sols max_z).det ≠ 0 →
      ∃ pars, apply_bc sols max_z b = Except.ok pars) := by
  constructor
  · intro h
    simp [apply_bc, np_linalg_inv, if_pos h, Except.map]
  · intro h
    exact ⟨(M_active sols max_z)⁻¹.mulVec (fun r => b r - M_forced_col sols max_z r),
      by simp [apply_bc, np_linalg_inv, if_neg h, Except.map]⟩

end

end Andreotti2009
